import Mathlib

/-!
Verification of the table-driven-test outline extractor (Go analyzer of
vscode-go-tdt-outline).  The definitions below are a shallow embedding of
the current parser implementation (package `parser`: `Parse`, `ParseFile`,
`extractTestFunction`, `extractTestCases`, `extractFromCompositeLiteral`,
`extractTestCasesFromMap`, `extractTestCasesFromSlice`, `extractTestName`,
`extractStructFields`, `extractTestNameFromPositional`, `isTestNameField`,
`extractStringLiteral`, `toRange`).  The Go AST (`go/ast`) is embedded as
inductive types carrying exactly the information the extractor consults;
external library functions used by the extractor (`strconv.Unquote`,
`strings.HasPrefix`, `strings.HasSuffix`, `strings.EqualFold`) are modelled
from their documented behavior.
-/

namespace GoParser

/-- A 1-indexed source position, as in Go `token.Position` (only the line
and column components, which are the only ones the extractor reads). -/
structure Position where
  line : Int
  column : Int
deriving DecidableEq, Repr

/-- Output position, 0-indexed; mirrors the Go struct `Line` with JSON
fields `line` and `character`. -/
structure Line where
  line : Int
  character : Int
deriving DecidableEq, Repr

/-- Mirrors the Go struct `Range` (fields `Start` and `End`); the field
`End` is called `stop` here because `end` is a Lean keyword. -/
structure Range where
  start : Line
  stop : Line
deriving DecidableEq, Repr

/-- The span of an AST node: its `Pos()` and `End()` token positions. -/
structure Span where
  pos : Position
  stop : Position
deriving DecidableEq, Repr

/-- Mirrors the Go struct `Symbol`. -/
structure Symbol where
  name : String
  detail : String
  kind : Int
  range : Range
  children : List Symbol
deriving Repr

/-- Mirrors the Go constant `SymbolKindFunction = 11`. -/
def SymbolKindFunction : Int := 11

/-- Mirrors the Go constant `SymbolKindStruct = 22`. -/
def SymbolKindStruct : Int := 22

/-- Mirrors the Go function `toRange`: convert 1-indexed token positions to
the 0-indexed half-open range of the output format. -/
def toRange (start stop : Position) : Range :=
  { start := { line := start.line - 1, character := start.column - 1 }
    stop := { line := stop.line - 1, character := stop.column - 1 } }

/-- The literal kind of a Go `ast.BasicLit` (`token.STRING` vs others). -/
inductive LitKind where
  | stringLit
  | intLit
  | otherLit
deriving DecidableEq, Repr

/-- A struct field declaration (`ast.Field`): the extractor only reads the
`Names` component, so only that is embedded. -/
structure Field where
  names : List String
deriving DecidableEq, Repr

/-- Go type expressions, restricted to the shapes `extractStructFields` and
`extractFromCompositeLiteral` distinguish: array/slice types, map types,
inline struct types, plain identifiers, and everything else. -/
inductive TypeExpr where
  | arrayType (elt : TypeExpr)
  | mapType (key value : TypeExpr)
  | structType (fields : List Field)
  | identType (name : String)
  | otherType
deriving DecidableEq, Repr

mutual

/-- Go expressions, restricted to the shapes the extractor distinguishes.
`basicLit` carries the raw source text of the literal (as `ast.BasicLit.Value`
does); `compositeLit` carries its syntactic type (none when elided), its
elements, and its source span; `funcLit` embeds closures, whose statements
are visited by the full-body `ast.Inspect` traversal. -/
inductive Expr where
  | basicLit (kind : LitKind) (value : String)
  | ident (name : String)
  | keyValue (key value : Expr) (span : Span)
  | compositeLit (type : Option TypeExpr) (elts : List Expr) (span : Span)
  | call (fn : Expr) (args : List Expr)
  | funcLit (body : List Stmt)
  | otherExpr
deriving Repr

/-- Go statements, restricted to the shapes `extractTestCases` matches on
(`ast.AssignStmt`, `ast.RangeStmt`, `ast.DeclStmt`) plus the generic
carriers the traversal walks through. `otherStmt` stands for statements
that contain no further nodes of interest. -/
inductive Stmt where
  | assign (lhs rhs : List Expr)
  | range (x : Expr) (body : List Stmt)
  | decl (isVar : Bool) (specs : List ValueSpec)
  | expr (e : Expr)
  | block (body : List Stmt)
  | otherStmt
deriving Repr

/-- A `var` declaration spec (`ast.ValueSpec`): only the initializer values
are consulted. -/
inductive ValueSpec where
  | mk (values : List Expr)
deriving Repr

end

/-- A top-level declaration: a function declaration (with the components of
`ast.FuncDecl` that `extractTestFunction` reads) or anything else. -/
inductive Decl where
  | funcD (name : String) (hasResults : Bool) (body : Option (List Stmt)) (span : Span)
  | otherDecl
deriving Repr

/-- Modelled from the Go standard library: `strings.HasPrefix s pre`. -/
def hasPrefixGo (s pre : String) : Bool :=
  pre.data.isPrefixOf s.data

/-- Modelled from the Go standard library: `strings.HasSuffix s suffix`. -/
def hasSuffixGo (s suffix : String) : Bool :=
  suffix.data.isSuffixOf s.data

/-- ASCII lower-casing of one character. -/
def lowerChar (c : Char) : Char :=
  if 65 ≤ c.toNat ∧ c.toNat ≤ 90 then Char.ofNat (c.toNat + 32) else c

/-- Modelled from the Go standard library: `strings.EqualFold`, adequate
for the ASCII identifiers compared by `isTestNameField`. -/
def equalFold (a b : String) : Bool :=
  a.data.map lowerChar = b.data.map lowerChar

/-- The backtick character that delimits Go raw string literals. -/
def backtick : Char := Char.ofNat 96

/-- Value of a hexadecimal digit, if any. -/
def hexVal (c : Char) : Option Nat :=
  if '0' ≤ c ∧ c ≤ '9' then some (c.toNat - '0'.toNat)
  else if 'a' ≤ c ∧ c ≤ 'f' then some (c.toNat - 'a'.toNat + 10)
  else if 'A' ≤ c ∧ c ≤ 'F' then some (c.toNat - 'A'.toNat + 10)
  else none

/-- Value of an octal digit, if any. -/
def octVal (c : Char) : Option Nat :=
  if '0' ≤ c ∧ c ≤ '7' then some (c.toNat - '0'.toNat) else none

/-- Whether a numeric escape denotes a valid code point (Go rejects
surrogates and values above `0x10FFFF`). -/
def validRune (n : Nat) : Bool :=
  n < 0xD800 ∨ (0xE000 ≤ n ∧ n < 0x110000)

/-- Modelled from the Go standard library `strconv.Unquote`, raw-string
case: the remaining characters after the opening backtick must consist of
the content (itself free of backticks) followed by the closing backtick;
carriage returns in the content are discarded, everything else is kept
verbatim. -/
def unquoteRaw : List Char → Option (List Char)
  | [] => none
  | c :: rest =>
    if c = backtick then (if rest = [] then some [] else none)
    else
      match unquoteRaw rest with
      | none => none
      | some r => some (if c = '\r' then r else c :: r)

/-- Modelled from the Go standard library `strconv.Unquote`, interpreted
(double-quoted) case: the characters after the opening quote up to the
closing quote, with the standard Go escape sequences interpreted
(`\a \b \f \n \r \t \v \\ \"`, `\xHH`, `\uHHHH`, and octal `\ooo`); a bare
newline or a malformed escape makes the literal invalid. -/
def unquoteInterp : List Char → Option (List Char)
  | [] => none
  | ['"'] => some []
  | '"' :: _ => none
  | '\n' :: _ => none
  | '\\' :: 'a' :: rest => (unquoteInterp rest).map (Char.ofNat 7 :: ·)
  | '\\' :: 'b' :: rest => (unquoteInterp rest).map (Char.ofNat 8 :: ·)
  | '\\' :: 'f' :: rest => (unquoteInterp rest).map (Char.ofNat 12 :: ·)
  | '\\' :: 'n' :: rest => (unquoteInterp rest).map ('\n' :: ·)
  | '\\' :: 'r' :: rest => (unquoteInterp rest).map ('\r' :: ·)
  | '\\' :: 't' :: rest => (unquoteInterp rest).map ('\t' :: ·)
  | '\\' :: 'v' :: rest => (unquoteInterp rest).map (Char.ofNat 11 :: ·)
  | '\\' :: '\\' :: rest => (unquoteInterp rest).map ('\\' :: ·)
  | '\\' :: '"' :: rest => (unquoteInterp rest).map ('"' :: ·)
  | '\\' :: 'x' :: h1 :: h2 :: rest =>
    match hexVal h1, hexVal h2 with
    | some a, some b => (unquoteInterp rest).map (Char.ofNat (16 * a + b) :: ·)
    | _, _ => none
  | '\\' :: 'u' :: h1 :: h2 :: h3 :: h4 :: rest =>
    match hexVal h1, hexVal h2, hexVal h3, hexVal h4 with
    | some a, some b, some c, some d =>
      let n := 4096 * a + 256 * b + 16 * c + d
      if validRune n then (unquoteInterp rest).map (Char.ofNat n :: ·) else none
    | _, _, _, _ => none
  | '\\' :: d1 :: d2 :: d3 :: rest =>
    match octVal d1, octVal d2, octVal d3 with
    | some a, some b, some c =>
      let n := 64 * a + 8 * b + c
      if n < 256 then (unquoteInterp rest).map (Char.ofNat n :: ·) else none
    | _, _, _ => none
  | '\\' :: _ => none
  | c :: rest => (unquoteInterp rest).map (c :: ·)

/-- Modelled from the Go standard library `strconv.Unquote` on the raw
source text of a string literal: dispatch on the opening delimiter. -/
def unquote (s : String) : Option String :=
  match s.data with
  | [] => none
  | c :: rest =>
    if c = backtick then (unquoteRaw rest).map String.mk
    else if c = '"' then (unquoteInterp rest).map String.mk
    else none

/-- Mirrors the Go function `extractStringLiteral`: the expression must be
a `BasicLit` of kind `token.STRING` whose text unquotes successfully; the
Go `(string, bool)` pair is rendered as `Option String`. -/
def extractStringLiteral : Expr → Option String
  | .basicLit kind value => if kind = .stringLit then unquote value else none
  | _ => none

/-- Mirrors the Go variable `testNameFields`. -/
def testNameFields : List String :=
  ["name", "testName", "desc", "description", "title", "scenario"]

/-- Mirrors the Go function `isTestNameField`: case-insensitive membership
in `testNameFields`. -/
def isTestNameField (fieldName : String) : Bool :=
  testNameFields.any fun name => equalFold fieldName name

/-- Mirrors the Go function `createTestCaseSymbol`; the node argument is
represented by its span. -/
def createTestCaseSymbol (testName : String) (span : Span) : Symbol :=
  { name := testName
    detail := "test case"
    kind := SymbolKindStruct
    range := toRange span.pos span.stop
    children := [] }

/-- The recursion of Go `extractStructFields` over a type expression:
`[]T` recurses into the element type, an inline `struct{...}` yields its
field list, anything else yields nothing. -/
def extractStructFieldsT : TypeExpr → List Field
  | .arrayType elt => extractStructFieldsT elt
  | .structType fields => fields
  | _ => []

/-- Mirrors the Go function `extractStructFields`, whose argument may be a
nil `ast.Expr` (the composite literal's type is elided). -/
def extractStructFields : Option TypeExpr → List Field
  | none => []
  | some t => extractStructFieldsT t

/-- The loop of Go `extractTestNameFromPositional`: iterate over the
declared fields together with their index `i`; skip a field when it has no
name, when its name is not a recognized test-name field, when the literal
has no element at index `i`, or when that element is not a string literal;
otherwise return the decoded string. -/
def positionalLoop (elts : List Expr) : List Field → Nat → String
  | [], _ => ""
  | f :: rest, i =>
    match f.names.head? with
    | none => positionalLoop elts rest (i + 1)
    | some fieldName =>
      if !isTestNameField fieldName then positionalLoop elts rest (i + 1)
      else
        match elts[i]? with
        | none => positionalLoop elts rest (i + 1)
        | some e =>
          match extractStringLiteral e with
          | some s => s
          | none => positionalLoop elts rest (i + 1)

/-- Mirrors the Go function `extractTestNameFromPositional`; the case
literal argument is represented by its element list. -/
def extractTestNameFromPositional (elts : List Expr) (structFields : List Field) : String :=
  positionalLoop elts structFields 0

/-- The key-value loop of Go `extractTestName`: scan the elements in order;
skip an element that is not a key-value pair, whose key is not an
identifier, whose key is not a recognized test-name field, or whose value
is not a string literal; return the decoded value of the first element
passing all checks. -/
def extractTestNameLoop : List Expr → Option String
  | [] => none
  | kv :: rest =>
    match kv with
    | .keyValue (.ident keyName) value _ =>
      if !isTestNameField keyName then extractTestNameLoop rest
      else
        match extractStringLiteral value with
        | some s => some s
        | none => extractTestNameLoop rest
    | _ => extractTestNameLoop rest

/-- Mirrors the Go function `extractTestName`: first the key-value form
(which returns as soon as it finds a recognized field with a string-literal
value, including the empty string), then the positional fallback; the case
literal argument is represented by its element list.  The empty string is
the Go sentinel for "no name". -/
def extractTestName (caseElts : List Expr) (structFields : List Field) : String :=
  match extractTestNameLoop caseElts with
  | some s => s
  | none => extractTestNameFromPositional caseElts structFields

/-- The loop of Go `extractTestCasesFromMap`: each element that is a
key-value pair whose key is a string literal yields a test-case symbol
named by the decoded key and spanning the key-value node. -/
def mapLoop : List Expr → List Symbol
  | [] => []
  | elt :: rest =>
    match elt with
    | .keyValue key _ span =>
      match extractStringLiteral key with
      | some testName => createTestCaseSymbol testName span :: mapLoop rest
      | none => mapLoop rest
    | _ => mapLoop rest

/-- Mirrors the Go function `extractTestCasesFromMap`; the composite
literal argument is represented by its element list. -/
def extractTestCasesFromMap (elts : List Expr) : List Symbol :=
  mapLoop elts

/-- The loop of Go `extractTestCasesFromSlice`: each element that is itself
a composite literal and has a nonempty extracted name yields a test-case
symbol spanning that element. -/
def sliceLoop (structFields : List Field) : List Expr → List Symbol
  | [] => []
  | elt :: rest =>
    match elt with
    | .compositeLit _ caseElts span =>
      let testName := extractTestName caseElts structFields
      if testName = "" then sliceLoop structFields rest
      else createTestCaseSymbol testName span :: sliceLoop structFields rest
    | _ => sliceLoop structFields rest

/-- Mirrors the Go function `extractTestCasesFromSlice`; the composite
literal argument is represented by its type and element list. -/
def extractTestCasesFromSlice (type : Option TypeExpr) (elts : List Expr) : List Symbol :=
  sliceLoop (extractStructFields type) elts

/-- Mirrors the Go function `extractFromCompositeLiteral`: a literal whose
syntactic type is a map type goes to the map extractor, everything else to
the slice/array extractor. -/
def extractFromCompositeLiteral (type : Option TypeExpr) (elts : List Expr) : List Symbol :=
  match type with
  | some (.mapType _ _) => extractTestCasesFromMap elts
  | _ => extractTestCasesFromSlice type elts

mutual

/-- The `ast.Inspect` traversal of Go `extractTestCases`, expression part:
the callback matches no expression node, so expressions only contribute by
being walked through (notably into the statements of function literals). -/
def exprCases : Expr → List Symbol
  | .basicLit _ _ => []
  | .ident _ => []
  | .keyValue key value _ => exprCases key ++ exprCases value
  | .compositeLit _ elts _ => exprListCases elts
  | .call fn args => exprCases fn ++ exprListCases args
  | .funcLit body => stmtListCases body
  | .otherExpr => []

def exprListCases : List Expr → List Symbol
  | [] => []
  | e :: es => exprCases e ++ exprListCases es

/-- The `ast.Inspect` traversal of Go `extractTestCases`, statement part:
the callback fires on `AssignStmt` (single right-hand side that is a
composite literal), `RangeStmt` (range expression that is a composite
literal) and `DeclStmt` (a `var` declaration whose spec has a single
composite-literal value); extraction at the node precedes the symbols found
while descending into its children, matching pre-order traversal. -/
def stmtCases : Stmt → List Symbol
  | .assign lhs rhs =>
    (match rhs with
     | [.compositeLit type elts _] => extractFromCompositeLiteral type elts
     | _ => []) ++ exprListCases lhs ++ exprListCases rhs
  | .range x body =>
    (match x with
     | .compositeLit type elts _ => extractFromCompositeLiteral type elts
     | _ => []) ++ exprCases x ++ stmtListCases body
  | .decl isVar specs =>
    (if isVar then specsExtract specs else []) ++ specListCases specs
  | .expr e => exprCases e
  | .block body => stmtListCases body
  | .otherStmt => []

def stmtListCases : List Stmt → List Symbol
  | [] => []
  | s :: ss => stmtCases s ++ stmtListCases ss

/-- The `DeclStmt` case of Go `extractTestCases`: loop over the value specs
of the declaration, extracting from each spec with exactly one value that
is a composite literal. -/
def specsExtract : List ValueSpec → List Symbol
  | [] => []
  | .mk values :: rest =>
    (match values with
     | [.compositeLit type elts _] => extractFromCompositeLiteral type elts
     | _ => []) ++ specsExtract rest

def specListCases : List ValueSpec → List Symbol
  | [] => []
  | .mk values :: rest => exprListCases values ++ specListCases rest

end

/-- Mirrors the Go function `extractTestCases` on a function body
(`ast.BlockStmt`, represented by its statement list). -/
def extractTestCases (body : List Stmt) : List Symbol :=
  stmtListCases body

/-- Mirrors the Go function `extractTestFunction` on a function
declaration: require the `Test` name prefix, no declared results, and a
concrete body; then require at least one extracted test case. -/
def extractTestFunction : Decl → Option Symbol
  | .otherDecl => none
  | .funcD name hasResults body span =>
    if !hasPrefixGo name "Test" || hasResults then none
    else
      match body with
      | none => none
      | some b =>
        if (extractTestCases b).isEmpty then none
        else
          some { name := name
                 detail := "test function"
                 kind := SymbolKindFunction
                 range := toRange span.pos span.stop
                 children := extractTestCases b }

/-- The `ast.Inspect` loop of Go `Parse` over the file's top-level
declarations: append a symbol for each matching function declaration, in
document order, without descending into matched functions (function
declarations do not nest, so this equals a plain scan of the file). -/
def parseSymbols : List Decl → List Symbol
  | [] => []
  | d :: rest =>
    (match extractTestFunction d with
     | some s => [s]
     | none => []) ++ parseSymbols rest

/-- Mirrors the Go function `Parse (filename, src)`: the external
`go/parser` run on the reader contents is represented by its outcome, a
parse error or a parsed file. -/
def Parse (filename : String) (src : Except String (List Decl)) : Except String (List Symbol) :=
  if filename = "" then .error "filename cannot be empty"
  else
    match src with
    | .error msg => .error ("failed to parse Go file " ++ filename ++ ": " ++ msg)
    | .ok file => .ok (parseSymbols file)

/-- Mirrors the Go function `ParseFile (filePath)`: the file system seen by
`os.Open` plus `go/parser` is represented as a map from paths to the parse
outcome of the file's contents (`none` = the file cannot be opened). -/
def ParseFile (fs : String → Option (Except String (List Decl))) (filePath : String) : Except String (List Symbol) :=
  if filePath = "" then .error "file path cannot be empty"
  else if !hasSuffixGo filePath ".go" then .error ("file must have .go extension: " ++ filePath)
  else
    match fs filePath with
    | none => .error "failed to open file"
    | some src => Parse filePath src

/-! Sample inputs (Go AST fragments used as concrete test vectors) and
declarative auxiliary definitions used to state the properties. -/

/-- A fixed span for sample nodes. -/
def sampleSpan : Span := ⟨⟨1, 1⟩, ⟨1, 2⟩⟩

/-- The raw source text of a plain double-quoted Go string literal. -/
def quoted (s : String) : String := "\"" ++ s ++ "\""

/-- A plain double-quoted string-literal expression. -/
def strLit (s : String) : Expr := .basicLit .stringLit (quoted s)

/-- The inline table type `[]struct{ name string }`. -/
def nameFieldTy : TypeExpr := .arrayType (.structType [⟨["name"]⟩])

/-- A key-value struct-literal table element, e.g. `{name: "case1"}`. -/
def caseElt (field value : String) : Expr :=
  .compositeLit none [.keyValue (.ident field) (strLit value) sampleSpan] sampleSpan

/-- A slice table literal of type `nameFieldTy` with the given elements. -/
def tableLit (elts : List Expr) : Expr :=
  .compositeLit (some nameFieldTy) elts sampleSpan

/-- The statement `tests := []struct{ name string }{{name: "case1"}}`. -/
def sampleTableStmt : Stmt :=
  .assign [.ident "tests"] [tableLit [caseElt "name" "case1"]]

/-- A qualifying test function with a one-case table. -/
def sampleTestDecl : Decl :=
  .funcD "TestSample" false (some [sampleTableStmt]) sampleSpan

/-- A qualifying test function whose body yields zero test cases. -/
def zeroCaseDecl : Decl :=
  .funcD "TestZero" false (some [.otherStmt]) sampleSpan

/-- A sample parsed file. -/
def sampleFile : List Decl := [sampleTestDecl, zeroCaseDecl]

/-- Placeholder symbol used to state list equations with `Option.getD`. -/
def defaultSymbol : Symbol :=
  { name := "", detail := "", kind := 0, range := ⟨⟨0, 0⟩, ⟨0, 0⟩⟩, children := [] }

/-- Declarative form of the element test of the key-value naming scan: a
key-value element whose key is an identifier naming a recognized test-name
field and whose value is a string literal. -/
def isRecognizedNameElt : Expr → Bool
  | .keyValue (.ident k) v _ => isTestNameField k && (extractStringLiteral v).isSome
  | _ => false

/-- The decoded string value of a key-value element, if any. -/
def eltNameValue : Expr → Option String
  | .keyValue _ v _ => extractStringLiteral v
  | _ => none

/-- Declarative form of one map-table entry: a key-value element whose key
is a string literal yields a test-case symbol. -/
def mapEntryCase : Expr → Option Symbol
  | .keyValue key _ sp => (extractStringLiteral key).map (fun n => createTestCaseSymbol n sp)
  | _ => none

/-- Declarative form of the positional-field test: the indexed field has a
first name that is a recognized test-name field, and the literal supplies a
string-literal element at that index. -/
def positionalMatch (elts : List Expr) (p : Nat × Field) : Bool :=
  (match p.2.names.head? with
   | some fn => isTestNameField fn
   | none => false)
  && (elts[p.1]?.bind extractStringLiteral).isSome

/-! Shared lemmas. -/

lemma unquoteRaw_append (cs : List Char) (hbt : backtick ∉ cs) (hcr : '\r' ∉ cs) :
    unquoteRaw (cs ++ [backtick]) = some cs := by
  induction cs with
  | nil => simp [unquoteRaw]
  | cons c cs ih =>
    have hc : c ≠ backtick := fun h => hbt (by simp [h])
    have hc' : c ≠ '\r' := fun h => hcr (by simp [h])
    have ih' := ih (fun h => hbt (List.mem_cons_of_mem _ h)) (fun h => hcr (List.mem_cons_of_mem _ h))
    simp [unquoteRaw, hc, hc', ih']

lemma extractTestFunction_children_ne (d : Decl) (s : Symbol)
    (h : extractTestFunction d = some s) : s.children ≠ [] := by
  cases d with
  | otherDecl => simp [extractTestFunction] at h
  | funcD name hasResults body sp =>
    cases hp : hasPrefixGo name "Test" with
    | false => simp [extractTestFunction, hp] at h
    | true =>
      cases hasResults with
      | true => simp [extractTestFunction, hp] at h
      | false =>
        cases body with
        | none => simp [extractTestFunction, hp] at h
        | some b =>
          cases hcs : extractTestCases b with
          | nil => simp [extractTestFunction, hp, hcs] at h
          | cons x xs =>
            simp only [extractTestFunction, hp, hcs, Bool.not_true, Bool.false_or,
              List.isEmpty_cons, Bool.false_eq_true, if_false, Option.some.injEq] at h
            subst h
            simp

lemma extractTestFunction_some_iff (name : String) (hasResults : Bool)
    (body : Option (List Stmt)) (sp : Span) :
    (extractTestFunction (.funcD name hasResults body sp)).isSome = true
      ↔ hasPrefixGo name "Test" = true ∧ hasResults = false
          ∧ ∃ b, body = some b ∧ extractTestCases b ≠ [] := by
  cases hp : hasPrefixGo name "Test" with
  | false => simp [extractTestFunction, hp]
  | true =>
    cases hasResults with
    | true => simp [extractTestFunction, hp]
    | false =>
      cases body with
      | none => simp [extractTestFunction, hp]
      | some b =>
        cases hcs : extractTestCases b with
        | nil => simp [extractTestFunction, hp, hcs]
        | cons x xs => simp [extractTestFunction, hp, hcs]

lemma positionalLoop_eq_find (elts : List Expr) :
    ∀ (fields : List Field) (n : Nat),
      positionalLoop elts fields n
        = match (fields.enumFrom n).find? (positionalMatch elts) with
          | some p => (elts[p.1]?.bind extractStringLiteral).getD ""
          | none => ""
  | [], n => by simp [positionalLoop, List.enumFrom]
  | f :: rest, n => by
    have ih := positionalLoop_eq_find elts rest (n + 1)
    have hcons : List.enumFrom n (f :: rest) = (n, f) :: List.enumFrom (n + 1) rest := rfl
    rw [hcons]
    cases hn : f.names.head? with
    | none =>
      have hm : positionalMatch elts (n, f) = false := by
        simp [positionalMatch, hn]
      rw [List.find?_cons_of_neg _ (by simp [hm])]
      simp [positionalLoop, hn, ih]
    | some fieldName =>
      cases hf : isTestNameField fieldName with
      | false =>
        have hm : positionalMatch elts (n, f) = false := by
          simp [positionalMatch, hn, hf]
        rw [List.find?_cons_of_neg _ (by simp [hm])]
        simp [positionalLoop, hn, hf, ih]
      | true =>
        cases he : elts[n]? with
        | none =>
          have hm : positionalMatch elts (n, f) = false := by
            simp [positionalMatch, hn, hf, he]
          rw [List.find?_cons_of_neg _ (by simp [hm])]
          simp [positionalLoop, hn, hf, he, ih]
        | some e =>
          cases hs : extractStringLiteral e with
          | none =>
            have hm : positionalMatch elts (n, f) = false := by
              simp [positionalMatch, hn, hf, he, hs]
            rw [List.find?_cons_of_neg _ (by simp [hm])]
            simp [positionalLoop, hn, hf, he, hs, ih]
          | some s =>
            have hm : positionalMatch elts (n, f) = true := by
              simp [positionalMatch, hn, hf, he, hs]
            rw [List.find?_cons_of_pos _ hm]
            simp [positionalLoop, hn, hf, he, hs]

/-! Claim theorems. -/

/-- Claim C1 counterexample: a composite literal that structurally
qualifies as a table (inspecting it yields a test case) contributes nothing
when it occurs in a position other than an assignment right-hand side, a
`var` initializer, or a range expression — here, passed directly as a call
argument inside the function body — refuting the claim that every
composite-literal node in the body is inspected as a table candidate. -/
theorem claim1_cex :
    extractFromCompositeLiteral (some nameFieldTy) [caseElt "name" "case1"]
      = [createTestCaseSymbol "case1" sampleSpan]
  ∧ extractTestCases
      [Stmt.expr (Expr.call (.ident "helper") [tableLit [caseElt "name" "case1"]])] = [] :=
  ⟨rfl, rfl⟩

/-- Claim C1 (amended): within a test-function body, a composite literal is
inspected as a table candidate exactly in three binding positions — the
single right-hand side of an assignment, the single initializer value of a
`var` declaration spec, and the range expression of a `for ... range`
clause — independent of the variable name on the left-hand side, and the
traversal reaches those positions at arbitrary nesting depth, in particular
inside a closure passed as a call argument (e.g. to `t.Run`). -/
theorem claim1_amended :
    (∀ (lhs : List Expr) (t : Option TypeExpr) (elts : List Expr) (sp : Span),
      stmtCases (.assign lhs [.compositeLit t elts sp])
        = extractFromCompositeLiteral t elts ++ exprListCases lhs ++ exprListCases elts)
  ∧ (∀ (t : Option TypeExpr) (elts : List Expr) (sp : Span),
      stmtCases (.decl true [.mk [.compositeLit t elts sp]])
        = extractFromCompositeLiteral t elts ++ exprListCases elts)
  ∧ (∀ (t : Option TypeExpr) (elts : List Expr) (sp : Span) (body : List Stmt),
      stmtCases (.range (.compositeLit t elts sp) body)
        = extractFromCompositeLiteral t elts ++ exprListCases elts ++ stmtListCases body)
  ∧ (∀ (fn : Expr) (args : List Expr),
      stmtCases (.expr (.call fn args)) = exprCases fn ++ exprListCases args)
  ∧ (∀ body : List Stmt, exprCases (.funcLit body) = extractTestCases body) := by
  refine ⟨?_, ?_, ?_, ?_, ?_⟩ <;> intros <;>
    simp [stmtCases, exprCases, exprListCases, specsExtract, specListCases, extractTestCases]

/-- Claim C4 (confirmed): for a key-value struct-literal element list, the
extracted name is the decoded value of the first element whose key is an
identifier matching the recognized field set case-insensitively and whose
value is a string literal; later elements are ignored, the positional
fallback is consulted only when no such element exists, and the spellings
`NAME`, `Name`, `name` are each recognized. -/
theorem claim4 :
    (∀ elts : List Expr,
      extractTestNameLoop elts = (elts.find? isRecognizedNameElt).bind eltNameValue)
  ∧ (∀ (elts : List Expr) (fields : List Field),
      extractTestName elts fields
        = (extractTestNameLoop elts).getD (extractTestNameFromPositional elts fields))
  ∧ isTestNameField "NAME" = true
  ∧ isTestNameField "Name" = true
  ∧ isTestNameField "name" = true := by
  refine ⟨?_, ?_, by decide, by decide, by decide⟩
  · intro elts
    induction elts with
    | nil => rfl
    | cons e rest ih =>
      cases e with
      | keyValue k v sp =>
        cases k with
        | ident kn =>
          cases hk : isTestNameField kn with
          | false => simp [extractTestNameLoop, isRecognizedNameElt, hk, ih]
          | true =>
            cases hv : extractStringLiteral v with
            | none => simp [extractTestNameLoop, isRecognizedNameElt, hk, hv, ih]
            | some s =>
              simp [extractTestNameLoop, isRecognizedNameElt, hk, hv, eltNameValue]
        | basicLit kind value => simp [extractTestNameLoop, isRecognizedNameElt, ih]
        | keyValue k' v' sp' => simp [extractTestNameLoop, isRecognizedNameElt, ih]
        | compositeLit t es sp' => simp [extractTestNameLoop, isRecognizedNameElt, ih]
        | call fn args => simp [extractTestNameLoop, isRecognizedNameElt, ih]
        | funcLit body => simp [extractTestNameLoop, isRecognizedNameElt, ih]
        | otherExpr => simp [extractTestNameLoop, isRecognizedNameElt, ih]
      | basicLit kind value => simp [extractTestNameLoop, isRecognizedNameElt, ih]
      | ident n => simp [extractTestNameLoop, isRecognizedNameElt, ih]
      | compositeLit t es sp => simp [extractTestNameLoop, isRecognizedNameElt, ih]
      | call fn args => simp [extractTestNameLoop, isRecognizedNameElt, ih]
      | funcLit body => simp [extractTestNameLoop, isRecognizedNameElt, ih]
      | otherExpr => simp [extractTestNameLoop, isRecognizedNameElt, ih]
  · intro elts fields
    cases h : extractTestNameLoop elts <;> simp [extractTestName, h]

/-- Claim C5 counterexample: a composite literal of map type whose key type
is `int` (not the primitive string type) still contributes a test case when
its single entry's key is written as a string literal, refuting the claim
that such a map contributes no test cases. -/
theorem claim5_cex :
    extractFromCompositeLiteral (some (.mapType (.identType "int") (.identType "T")))
      [Expr.keyValue (strLit "a") Expr.otherExpr sampleSpan]
      = [createTestCaseSymbol "a" sampleSpan]
  ∧ (extractFromCompositeLiteral (some (.mapType (.identType "int") (.identType "T")))
      [Expr.keyValue (strLit "a") Expr.otherExpr sampleSpan]).length = 1 :=
  ⟨rfl, rfl⟩

/-- Claim C5 (amended): a composite literal whose syntactic type is any map
type is treated as a map-form test table, with no check on the key type at
all: the extraction result is the same for every pair of key and value
types, and each entry whose key is a string literal yields a test case. -/
theorem claim5_amended :
    (∀ (kt vt : TypeExpr) (elts : List Expr),
      extractFromCompositeLiteral (some (.mapType kt vt)) elts = extractTestCasesFromMap elts)
  ∧ (∀ (kt kt' vt vt' : TypeExpr) (elts : List Expr),
      extractFromCompositeLiteral (some (.mapType kt vt)) elts
        = extractFromCompositeLiteral (some (.mapType kt' vt')) elts) :=
  ⟨fun _ _ _ => rfl, fun _ _ _ _ _ => rfl⟩

/-- Claim C6 counterexample: for the inline struct type
`struct{ name string; title string }`, the first declared field matching
the recognized set is `name` at index 0, and the positional element at
index 0 is not a string literal; the claim then determines no name for the
element, yet the code extracts `"x"` from the later matching field `title`
at index 1. -/
theorem claim6_cex :
    extractTestName [Expr.basicLit .intLit "1", strLit "x"] [⟨["name"]⟩, ⟨["title"]⟩] = "x"
  ∧ isTestNameField "name" = true
  ∧ extractStringLiteral (Expr.basicLit .intLit "1") = none :=
  ⟨rfl, by decide, rfl⟩

/-- Claim C6 (amended): positional name extraction scans the locally
visible field declarations in order and takes the first field that both
matches the recognized set case-insensitively and has a string-literal
element at its index — a matching field whose slot is missing or not a
string literal is passed over in favor of later matching fields; when the
literal's type is a named identifier the field list resolves to nothing and
no positional name is extracted, so such an element is skipped. -/
theorem claim6_amended :
    (∀ (elts : List Expr) (fields : List Field),
      extractTestNameFromPositional elts fields
        = match (fields.enumFrom 0).find? (positionalMatch elts) with
          | some p => (elts[p.1]?.bind extractStringLiteral).getD ""
          | none => "")
  ∧ (∀ name : String, extractStructFields (some (.identType name)) = [])
  ∧ (∀ elts : List Expr, extractTestNameFromPositional elts [] = "")
  ∧ (∀ (tyName s : String) (sp : Span),
      extractTestCasesFromSlice (some (.identType tyName))
        [.compositeLit none [strLit s] sp] = []) := by
  refine ⟨?_, fun _ => rfl, fun _ => rfl, ?_⟩
  · intro elts fields
    exact positionalLoop_eq_find elts fields 0
  · intro tyName s sp
    rfl

/-- Claim C10 (confirmed): a slice table element whose recognized name
field carries the empty string literal produces no test-case symbol,
exactly like an element with no recognized name field at all; a function
whose only table consists of such elements is suppressed entirely; and a
map entry whose key is the empty string literal does produce a test-case
symbol with the empty name. -/
theorem claim10 :
    extractTestName [Expr.keyValue (.ident "name") (strLit "") sampleSpan]
      (extractStructFields (some nameFieldTy)) = ""
  ∧ extractTestCasesFromSlice (some nameFieldTy) [caseElt "name" ""] = []
  ∧ extractTestCasesFromSlice (some nameFieldTy) [caseElt "input" "x"] = []
  ∧ extractTestFunction
      (.funcD "TestOnlyEmpty" false
        (some [Stmt.assign [.ident "tests"]
          [Expr.compositeLit (some nameFieldTy) [caseElt "name" ""] sampleSpan]])
        sampleSpan) = none
  ∧ extractTestCasesFromMap [Expr.keyValue (strLit "") Expr.otherExpr sampleSpan]
      = [createTestCaseSymbol "" sampleSpan] :=
  ⟨rfl, rfl, rfl, rfl, rfl⟩

/-- Claim C2 (confirmed): a function declaration yields a test-function
symbol only if its name begins with `Test`, it declares no results, and it
has a concrete body; a declaration failing any of the three yields `none`
regardless of its body's content (the body is never searched); and for a
declaration satisfying all three, table discovery over the body decides the
outcome — the symbol exists exactly when the body yields cases, and then
carries them as children. -/
theorem claim2 (name : String) (hasResults : Bool) (body : Option (List Stmt)) (sp : Span) :
    ((extractTestFunction (.funcD name hasResults body sp)).isSome = true →
       hasPrefixGo name "Test" = true ∧ hasResults = false ∧ body.isSome = true)
  ∧ (hasPrefixGo name "Test" = false ∨ hasResults = true ∨ body = none →
       extractTestFunction (.funcD name hasResults body sp) = none)
  ∧ (∀ b, body = some b → hasPrefixGo name "Test" = true → hasResults = false →
       extractTestFunction (.funcD name hasResults body sp)
         = (if (extractTestCases b).isEmpty then none
            else some { name := name, detail := "test function", kind := SymbolKindFunction,
                        range := toRange sp.pos sp.stop,
                        children := extractTestCases b })) := by
  refine ⟨?_, ?_, ?_⟩
  · intro h
    rcases (extractTestFunction_some_iff name hasResults body sp).mp h with ⟨h1, h2, b, h3, _⟩
    exact ⟨h1, h2, by simp [h3]⟩
  · rintro (h | h | h) <;> simp [extractTestFunction, h]
  · rintro b rfl h1 h2
    subst h2
    simp [extractTestFunction, h1]

/-- Claim C2 witness: the sample qualifying function with a one-case table
produces its symbol via table discovery, and a declaration whose name lacks
the `Test` prefix produces none despite having the same table body. -/
theorem claim2_w :
    extractTestFunction sampleTestDecl
      = some { name := "TestSample", detail := "test function", kind := SymbolKindFunction,
               range := toRange sampleSpan.pos sampleSpan.stop,
               children := [createTestCaseSymbol "case1" sampleSpan] }
  ∧ extractTestFunction (.funcD "HelperSample" false (some [sampleTableStmt]) sampleSpan)
      = none := by
  constructor
  · have h := (claim2 "TestSample" false (some [sampleTableStmt]) sampleSpan).2.2
      [sampleTableStmt] rfl (by decide) rfl
    exact h.trans rfl
  · exact (claim2 "HelperSample" false (some [sampleTableStmt]) sampleSpan).2.1
      (Or.inl (by decide))

/-- Claim C3 (confirmed): with a nonempty filename and a successfully
parsed file, `Parse` succeeds; a function declaration whose table discovery
yields zero cases produces no symbol at all; and consequently every symbol
in the output has a nonempty children list (no 1-with-empty-children
entries exist). -/
theorem claim3 (filename : String) (h : filename ≠ "") (file : List Decl) :
    Parse filename (.ok file) = .ok (parseSymbols file)
  ∧ (∀ (name : String) (hasResults : Bool) (body : Option (List Stmt)) (sp : Span),
       (∀ b, body = some b → extractTestCases b = []) →
       extractTestFunction (.funcD name hasResults body sp) = none)
  ∧ (∀ s ∈ parseSymbols file, s.children ≠ []) := by
  refine ⟨by simp [Parse, h], ?_, ?_⟩
  · intro name hasResults body sp hb
    cases hsome : extractTestFunction (.funcD name hasResults body sp) with
    | none => rfl
    | some s =>
      have := (extractTestFunction_some_iff name hasResults body sp).mp (by simp [hsome])
      rcases this with ⟨_, _, b, hbody, hne⟩
      exact absurd (hb b hbody) hne
  · intro s hs
    induction file with
    | nil => simp [parseSymbols] at hs
    | cons d rest ih =>
      simp only [parseSymbols] at hs
      rcases List.mem_append.mp hs with hd | ht
      · cases hfd : extractTestFunction d with
        | none => rw [hfd] at hd; simp at hd
        | some s' =>
          rw [hfd] at hd
          simp at hd
          subst hd
          exact extractTestFunction_children_ne d s hfd
      · exact ih ht

/-- Claim C3 witness: a file whose single test function has a body with no
tables parses successfully to the empty symbol list. -/
theorem claim3_w : Parse "sample_test.go" (.ok [zeroCaseDecl]) = .ok [] := by
  have h := (claim3 "sample_test.go" (by decide) [zeroCaseDecl]).1
  exact h.trans rfl

/-- Claim C7 (confirmed): the output array is exactly the per-declaration
symbols of the file in source order — the declarations producing a symbol,
filtered in order, mapped to their symbols, with the omissions being
exactly the declarations for which `extractTestFunction` yields none
(a test-named, result-free, bodied function with a nonempty case list
always appears); within one function, cases concatenate in statement
order, and a map literal's entries produce cases in element order. -/
theorem claim7 :
    (∀ file : List Decl,
      parseSymbols file
        = (file.filter fun d => (extractTestFunction d).isSome).map
            (fun d => (extractTestFunction d).getD defaultSymbol))
  ∧ (∀ (s : Stmt) (ss : List Stmt), extractTestCases (s :: ss) = stmtCases s ++ extractTestCases ss)
  ∧ (∀ elts : List Expr, extractTestCasesFromMap elts = elts.filterMap mapEntryCase)
  ∧ (∀ (name : String) (hasResults : Bool) (body : Option (List Stmt)) (sp : Span),
      (extractTestFunction (.funcD name hasResults body sp)).isSome = true
        ↔ hasPrefixGo name "Test" = true ∧ hasResults = false
            ∧ ∃ b, body = some b ∧ extractTestCases b ≠ []) := by
  refine ⟨?_, fun _ _ => rfl, ?_, extractTestFunction_some_iff⟩
  · intro file
    induction file with
    | nil => rfl
    | cons d rest ih =>
      cases hfd : extractTestFunction d with
      | none => simp [parseSymbols, hfd, ih]
      | some s => simp [parseSymbols, hfd, ih]
  · intro elts
    induction elts with
    | nil => rfl
    | cons e rest ih =>
      cases e with
      | keyValue k v sp =>
        cases hk : extractStringLiteral k with
        | none => simp [extractTestCasesFromMap, mapLoop, mapEntryCase, hk, ih,
            extractTestCasesFromMap] at ih ⊢; exact ih
        | some n => simp [extractTestCasesFromMap, mapLoop, mapEntryCase, hk] at ih ⊢; exact ih
      | basicLit kind value => simpa [extractTestCasesFromMap, mapLoop, mapEntryCase] using ih
      | ident n => simpa [extractTestCasesFromMap, mapLoop, mapEntryCase] using ih
      | compositeLit t es sp => simpa [extractTestCasesFromMap, mapLoop, mapEntryCase] using ih
      | call fn args => simpa [extractTestCasesFromMap, mapLoop, mapEntryCase] using ih
      | funcLit b => simpa [extractTestCasesFromMap, mapLoop, mapEntryCase] using ih
      | otherExpr => simpa [extractTestCasesFromMap, mapLoop, mapEntryCase] using ih

/-- Claim C8 (confirmed): a raw backtick-delimited string literal whose
content contains no backtick (as Go raw literals cannot) and no carriage
return decodes to exactly that content — in particular with embedded double
quotes and embedded newlines — and a double-quoted literal decodes with its
standard escape sequences interpreted. -/
theorem claim8 (s : String) (hbt : backtick ∉ s.data) (hcr : '\r' ∉ s.data) :
    extractStringLiteral
      (.basicLit .stringLit (String.mk (backtick :: (s.data ++ [backtick])))) = some s
  ∧ extractStringLiteral (.basicLit .stringLit "\"say \\\"hi\\\"\\nbye\"")
      = some "say \"hi\"\nbye" := by
  constructor
  · show (if (LitKind.stringLit = LitKind.stringLit) then
        unquote (String.mk (backtick :: (s.data ++ [backtick]))) else none) = some s
    rw [if_pos rfl]
    show (match (String.mk (backtick :: (s.data ++ [backtick]))).data with
      | [] => none
      | c :: rest =>
        if c = backtick then (unquoteRaw rest).map String.mk
        else if c = '"' then (unquoteInterp rest).map String.mk
        else none) = some s
    show (if backtick = backtick then Option.map String.mk (unquoteRaw (s.data ++ [backtick]))
        else if backtick = '"' then Option.map String.mk (unquoteInterp (s.data ++ [backtick]))
        else none) = some s
    rw [if_pos rfl, unquoteRaw_append s.data hbt hcr]
    cases s
    rfl
  · rfl

/-- Claim C8 witness: a raw string whose content embeds both a quoted word
and a newline decodes to exactly that content. -/
theorem claim8_w :
    extractStringLiteral
      (.basicLit .stringLit
        (String.mk (backtick :: ("multi \"quoted\"\nline".data ++ [backtick]))))
      = some "multi \"quoted\"\nline" :=
  (claim8 "multi \"quoted\"\nline" (by decide) (by decide)).1

/-- Claim C9 (confirmed): `ParseFile` fails for every path not ending in
`.go`, with a result that does not depend on the file system at all (the
file is never opened, so even an existing valid file is rejected), while
the reader-based `Parse` performs no extension check on its filename
argument: any nonempty filename with parseable content succeeds. -/
theorem claim9 :
    (∀ (fs : String → Option (Except String (List Decl))) (path : String),
        hasSuffixGo path ".go" = false →
        ParseFile fs path
          = .error (if path = "" then "file path cannot be empty"
                    else "file must have .go extension: " ++ path))
  ∧ (∀ (fs fs' : String → Option (Except String (List Decl))) (path : String),
        hasSuffixGo path ".go" = false → ParseFile fs path = ParseFile fs' path)
  ∧ (∀ (filename : String) (file : List Decl), filename ≠ "" →
        Parse filename (.ok file) = .ok (parseSymbols file)) := by
  refine ⟨?_, ?_, ?_⟩
  · intro fs path hsuf
    by_cases hp : path = ""
    · simp [ParseFile, hp]
    · simp [ParseFile, hp, hsuf]
  · intro fs fs' path hsuf
    by_cases hp : path = ""
    · simp [ParseFile, hp]
    · simp [ParseFile, hp, hsuf]
  · intro filename file h
    simp [Parse, h]

/-- Claim C9 witness: a path with a `.txt` extension is rejected even when
the file system holds a valid parseable file at that path, while `Parse`
accepts the same name for reader-based input. -/
theorem claim9_w :
    ParseFile (fun _ => some (.ok sampleFile)) "sample.txt"
      = .error "file must have .go extension: sample.txt"
  ∧ Parse "sample.txt" (.ok sampleFile) = .ok (parseSymbols sampleFile) := by
  constructor
  · have h := claim9.1 (fun _ => some (.ok sampleFile)) "sample.txt" (by decide)
    exact h.trans (by rfl)
  · exact claim9.2.2 "sample.txt" sampleFile (by decide)

end GoParser
